import Mathlib

/-
Verification of the Droplet invoice-approver pipeline.

The Python sources are shallowly embedded:
  - rate_analysis12.5.py : contracted-rate derivation, numeric normalization,
    rate difference and the decide_approval rule (build_rate_comps);
  - full_auto_droplet.py : invoice CSV selection (find_invoice_csv);
  - DL_contract_rate_land.py : the approval run (token handling, OData lookup,
    approve call, counters, summary email).
Monetary amounts are modelled as rationals; missing values (pandas NaN) as
Option.none; HTTP traffic as an oracle mapping the index of each issued
request to its response (none standing for a network exception).
-/

namespace Droplet

/-! ### Character and string helpers (comma stripping, trim, upper, contains) -/

/-- Whitespace characters recognised by the trim model (Python str.strip). -/
def isSpaceChar (c : Char) : Bool :=
  c == ' ' || c == '\t' || c == '\n' || c == '\r'

/-- Trim leading and trailing whitespace from a character list. -/
def trimChars (l : List Char) : List Char :=
  ((l.dropWhile isSpaceChar).reverse.dropWhile isSpaceChar).reverse

/-- Model of Python str.strip(). -/
def strTrim (s : String) : String :=
  String.mk (trimChars s.data)

/-- Model of Python str.upper() (ASCII letters). -/
def strUpper (s : String) : String :=
  String.mk (s.data.map Char.toUpper)

/-- Model of Python str.lower() (ASCII letters). -/
def strLower (s : String) : String :=
  String.mk (s.data.map Char.toLower)

/-- Does the pattern p occur as a leading block of s? -/
def charsStart : List Char → List Char → Bool
  | _, [] => true
  | [], _ :: _ => false
  | c :: cs, p :: ps => c == p && charsStart cs ps

/-- Does the pattern p occur anywhere inside s? -/
def charsContain : List Char → List Char → Bool
  | [], p => charsStart [] p
  | c :: cs, p => charsStart (c :: cs) p || charsContain cs p

/-- Model of the Python substring test (pat in s). -/
def strContains (s pat : String) : Bool :=
  charsContain s.data pat.data

/-- Model of str.endswith(suf). -/
def strEnds (s suf : String) : Bool :=
  charsStart s.data.reverse suf.data.reverse

/-- The path component after the final slash (os.path.basename on POSIX). -/
def baseName (s : String) : String :=
  String.mk ((s.data.reverse.takeWhile (fun c => c != '/')).reverse)

/-! ### Approval decision (rate_analysis12.5.py, decide_approval) -/

/-- Approval.Status values written into the Rate_Comps sheet. -/
inductive ApprovalStatus where
  | Approved
  | Review
deriving DecidableEq, Repr

/-- Embeds decide_approval from rate_analysis12.5.py: a missing rate
difference gives Review; then |diff| < 0.06 gives Approved; then
-5 <= diff < 0 gives Approved; otherwise Review. -/
def decide_approval : Option ℚ → ApprovalStatus
  | none => ApprovalStatus.Review
  | some diff =>
      if |diff| < 6/100 then ApprovalStatus.Approved
      else if diff < 0 ∧ diff ≥ -5 then ApprovalStatus.Approved
      else ApprovalStatus.Review

/-! ### Contracted rate derivation (rate_analysis12.5.py, build_rate_comps) -/

/-- Embeds the contracted-rate columns of build_rate_comps: the monthly rate
when present; else seasonal divided by billing months when both are present;
else missing. -/
def contractedRate (monthly seasonal billingMonths : Option ℚ) : Option ℚ :=
  match monthly with
  | some m => some m
  | none =>
      match seasonal, billingMonths with
      | some s, some b => some (s / b)
      | _, _ => none

/-! ### Numeric normalization (pd.to_numeric with errors=coerce) -/

/-- Is c an ASCII digit (code 48 to 57)? -/
def isDigitChar (c : Char) : Bool :=
  48 ≤ c.toNat && c.toNat ≤ 57

/-- Numeric value of a digit list read left to right. -/
def digitsVal (l : List Char) : ℕ :=
  l.foldl (fun a c => a * 10 + (c.toNat - 48)) 0

/-- Strip one optional leading sign, recording whether it was a minus. -/
def splitSign : List Char → Bool × List Char
  | '-' :: t => (true, t)
  | '+' :: t => (false, t)
  | cs => (false, cs)

/-- Parse the mantissa of a decimal literal: an integer part and an
optional fractional part after one dot, with at least one digit; returns
the mantissa value and the remaining characters (a candidate exponent
suffix). -/
def parseMantissa (rest : List Char) : Option (ℚ × List Char) :=
  let intPart := rest.takeWhile isDigitChar
  match rest.dropWhile isDigitChar with
  | '.' :: fr =>
      if intPart.isEmpty && (fr.takeWhile isDigitChar).isEmpty then none
      else
        some ((digitsVal intPart : ℚ) +
          (digitsVal (fr.takeWhile isDigitChar) : ℚ) /
            (10 ^ (fr.takeWhile isDigitChar).length : ℚ),
          fr.dropWhile isDigitChar)
  | other =>
      if intPart.isEmpty then none
      else some ((digitsVal intPart : ℚ), other)

/-- Parse the exponent suffix of a scientific literal: the empty suffix is
exponent zero; an e or E, an optional sign and at least one digit give that
exponent; anything else fails the whole literal. -/
def parseExponent : List Char → Option (Bool × ℕ)
  | [] => some (false, 0)
  | c :: rest =>
      if c = 'e' ∨ c = 'E' then
        match splitSign rest with
        | (eneg, ds) =>
            if !ds.isEmpty && ds.all isDigitChar then some (eneg, digitsVal ds)
            else none
      else none

/-- Parse an unsigned decimal literal: a mantissa and an optional
exponent. -/
def parseUnsigned (rest : List Char) : Option ℚ :=
  match parseMantissa rest with
  | none => none
  | some (m, expPart) =>
      match parseExponent expPart with
      | none => none
      | some (eneg, e) =>
          some (if eneg then m / (10 ^ e : ℚ) else m * (10 ^ e : ℚ))

/-- Model of pd.to_numeric(s, errors=coerce) on finite decimal literals:
surrounding whitespace is ignored, then an optional sign, an integer part,
an optional fractional part and an optional exponent, with at least one
mantissa digit; any other string coerces to missing (NaN, as the literal
nan itself does). Non-finite literals such as inf, which pandas parses to
IEEE infinities, have no rational value; the model maps them to missing,
and no statement in this file relies on their behaviour. -/
def parseDecimal (s : String) : Option ℚ :=
  match splitSign (trimChars s.data) with
  | (neg, rest) =>
      (parseUnsigned rest).map (fun v => if neg then -v else v)

/-- Embeds the normalization of Inv.Total, Invoice Labor Amount and Sales Tax
in build_rate_comps: strip every comma, then coerce to a number, unparsable
values becoming missing. -/
def normalizeAmount (s : String) : Option ℚ :=
  parseDecimal (String.mk (s.data.filter (fun c => c != ',')))

/-- Round to two decimal places, as the .round(2) on the tax helper. -/
def round2 (q : ℚ) : ℚ :=
  (round (q * 100) : ℤ) / 100

/-- Embeds lines 102-105 of build_rate_comps, the per-row __SalesTax
helper: pd.to_numeric of each tax column with missing values replaced by 0
via fillna(0), summed and rounded to two decimals. When either tax column
is absent, inv_df.get returns the scalar 0 and pd.to_numeric of a scalar
returns a scalar, which has no .fillna method: the line raises
AttributeError and build_rate_comps aborts before writing any output
(Except.error). -/
def salesTaxHelper (hasTaxCol hasTax2Col : Bool) (taxVal tax2Val : String) :
    Except Unit ℚ :=
  if hasTaxCol && hasTax2Col then
    Except.ok (round2 ((parseDecimal taxVal).getD 0 + (parseDecimal tax2Val).getD 0))
  else Except.error ()

/-- The Sales Tax value a completed run writes for one row: building the
__SalesTax helper must succeed (both tax columns present, else the run
aborts with no Rate_Comps sheet), and the selected Sales Tax source is then
the raw Invoice Tax Amount column — first in the candidate list, ahead of
__SalesTax — normalized with comma stripping and coercion to missing. -/
def salesTaxOutput (hasTaxCol hasTax2Col : Bool) (taxVal tax2Val : String) :
    Except Unit (Option ℚ) :=
  match salesTaxHelper hasTaxCol hasTax2Col taxVal tax2Val with
  | Except.error e => Except.error e
  | Except.ok _ => Except.ok (normalizeAmount taxVal)

/-! ### Rate_Comps rows (rate_analysis12.5.py, build_rate_comps) -/

/-- One invoice line as read from the invoice report, with the monetary
fields still raw text. -/
structure InvoiceRow where
  locationId : Option Int
  wo : String
  category : String
  trade : String
  invoiceNumber : String
  invStatus : String
  invTotalRaw : String
  laborRaw : String
  salesTaxRaw : String
deriving DecidableEq, Repr

/-- One row of the Rate_Comps output sheet. -/
structure RateCompRow where
  locationId : Option Int
  wo : String
  category : String
  trade : String
  invoiceNumber : String
  invStatus : String
  invTotal : Option ℚ
  laborAmount : Option ℚ
  salesTax : Option ℚ
  contractedRate : Option ℚ
  rateDifference : Option ℚ
  approvalStatus : ApprovalStatus
deriving DecidableEq, Repr

/-- Subtraction propagating missing operands, as pandas NaN arithmetic. -/
def optSub : Option ℚ → Option ℚ → Option ℚ
  | some a, some b => some (a - b)
  | _, _ => none

/-- Embeds the per-row computation of build_rate_comps: look up the
contracted rate by location, normalize the three monetary columns,
take Rate Difference = Inv.Total - Contracted Rate (missing if either
operand is), and apply decide_approval. -/
def buildRow (rateMap : Int → Option ℚ) (r : InvoiceRow) : RateCompRow :=
  let contracted := r.locationId.bind rateMap
  let invTotal := normalizeAmount r.invTotalRaw
  let labor := normalizeAmount r.laborRaw
  let tax := normalizeAmount r.salesTaxRaw
  let diff := optSub invTotal contracted
  { locationId := r.locationId
    wo := r.wo
    category := r.category
    trade := r.trade
    invoiceNumber := r.invoiceNumber
    invStatus := r.invStatus
    invTotal := invTotal
    laborAmount := labor
    salesTax := tax
    contractedRate := contracted
    rateDifference := diff
    approvalStatus := decide_approval diff }

/-- Embeds build_rate_comps over the whole invoice table: every input row is
mapped, in order, to its Rate_Comps row. -/
def build_rate_comps (rateMap : Int → Option ℚ) (rows : List InvoiceRow) :
    List RateCompRow :=
  rows.map (buildRow rateMap)

/-- Identifying fields of a Rate_Comps row, for order-preservation facts. -/
def rateCompKey (r : RateCompRow) :
    Option Int × String × String × String × String × String :=
  (r.locationId, r.wo, r.category, r.trade, r.invoiceNumber, r.invStatus)

/-- Identifying fields of an invoice line. -/
def invoiceKey (r : InvoiceRow) :
    Option Int × String × String × String × String × String :=
  (r.locationId, r.wo, r.category, r.trade, r.invoiceNumber, r.invStatus)

/-! ### Invoice CSV selection (full_auto_droplet.py, find_invoice_csv) -/

/-- The preferred exact invoice report file name. -/
def PREFERRED_NAME : String := "invoice_report_-_financial_details.csv"

/-- The walked files whose lowercased name ends in .csv, in walk order. -/
def csvCandidates (files : List String) : List String :=
  files.filter fun f => strEnds (strLower f) ".csv"

/-- Embeds find_invoice_csv: among the walked files keep those whose
lowercased name ends in .csv; absence of any is a fatal error (none);
otherwise prefer the exact expected path, then a name containing
financial_details, then accounting_details, then the first CSV. -/
def find_invoice_csv (extractDir : String) (files : List String) :
    Option String :=
  if (csvCandidates files).isEmpty then none
  else
    match (csvCandidates files).find?
        (fun c => c == extractDir ++ "/" ++ PREFERRED_NAME) with
    | some c => some c
    | none =>
      match (csvCandidates files).find?
          (fun c => strContains (strLower (baseName c)) "financial_details") with
      | some c => some c
      | none =>
        match (csvCandidates files).find?
            (fun c => strContains (strLower (baseName c)) "accounting_details") with
        | some c => some c
        | none => (csvCandidates files).head?

/-! ### HTTP model for the approval run (DL_contract_rate_land.py)

A run issues requests one at a time; the oracle maps the index of each
issued request to its outcome, none standing for a network exception
(requests.RequestException). Responses carry the status code, the body text
(used by the 403 idempotency check) and, for lookup responses, the parsed
JSON value list. -/

/-- One element of the OData value array returned by the invoice lookup. -/
structure LookupItem where
  id : Option Int
  trade : Option String
  approvalCode : Option String
  number : Option String
deriving DecidableEq, Repr

/-- An HTTP response as the scripts observe it. -/
structure HttpResp where
  status : Nat
  body : String
  value : List LookupItem
deriving DecidableEq, Repr

/-- Invoice metadata assembled by lookup_invoice_by_wo (Id known present). -/
structure Meta where
  id : Int
  trade : Option String
  approvalCode : Option String
  number : Option String
deriving DecidableEq, Repr

/-- Observable auth/network events of a run, in order. -/
inductive Ev where
  | fetch
  | request (status : Option Nat)
deriving DecidableEq, Repr

/-- Mutable context of a run: how many requests have been issued, how many
tokens fetched, the shared token slot (tokens are named by fetch index), and
the event trace. The token slot is created fresh by every run
(token_box is a local of run_approvals), so no token survives a run. -/
structure World where
  reqIdx : Nat
  tokCount : Nat
  tok : Option Nat
  trace : List Ev
deriving DecidableEq, Repr

/-- Embeds get_access_token: obtain a fresh token into the shared slot. -/
def fetchNewToken (w : World) : World :=
  { w with
    tok := some w.tokCount
    tokCount := w.tokCount + 1
    trace := w.trace ++ [Ev.fetch] }

/-- Embeds get_or_refresh_token: reuse the slot, filling it only if empty. -/
def getOrRefreshTok (w : World) : World :=
  match w.tok with
  | some _ => w
  | none => fetchNewToken w

/-- Issue one HTTP request with the current token (fetching one first if the
slot is empty). The oracle decides the response from the request index. -/
def doRequest (oracle : Nat → Option HttpResp) (w : World) :
    Option HttpResp × World :=
  let w1 := getOrRefreshTok w
  let r := oracle w1.reqIdx
  (r, { w1 with
        reqIdx := w1.reqIdx + 1
        trace := w1.trace ++ [Ev.request (r.map (fun x => x.status))] })

/-- The lookup cache: work-order key to a positive or negative result. -/
abbrev Cache := List (String × Option Meta)

/-- First cache entry for a key, if the key has been recorded. -/
def cacheFind : Cache → String → Option (Option Meta)
  | [], _ => none
  | (k, v) :: rest, key => if k == key then some v else cacheFind rest key

/-- Record a lookup outcome for a key. -/
def cacheAdd (c : Cache) (key : String) (v : Option Meta) : Cache :=
  (key, v) :: c

/-- Tail of lookup_invoice_by_wo after the auth dance: a non-2xx/3xx status,
an empty value list or a missing Id cache a negative result; otherwise the
metadata is cached and returned. (requests resp.ok means status < 400.) -/
def finishLookup (resp : HttpResp) (woKey : String) (cache : Cache)
    (w : World) : Option Meta × Cache × World :=
  if resp.status ≥ 400 then (none, cacheAdd cache woKey none, w)
  else
    match resp.value with
    | [] => (none, cacheAdd cache woKey none, w)
    | item :: _ =>
        match item.id with
        | none => (none, cacheAdd cache woKey none, w)
        | some i =>
            let m : Meta := ⟨i, item.trade, item.approvalCode, item.number⟩
            (some m, cacheAdd cache woKey (some m), w)

/-- Embeds lookup_invoice_by_wo: a blank work order returns none without
touching the network or the cache; a cached key is answered from the cache;
otherwise one request is issued, a 401 triggers exactly one token refresh
and one retry, and a second 401, a network error, a bad status, an empty
result or a missing Id all cache a negative result. -/
def lookup_invoice_by_wo (oracle : Nat → Option HttpResp) (wo : String)
    (cache : Cache) (w : World) : Option Meta × Cache × World :=
  let woKey := strTrim wo
  if woKey == "" then (none, cache, w)
  else
    match cacheFind cache woKey with
    | some v => (v, cache, w)
    | none =>
        match doRequest oracle w with
        | (none, w1) => (none, cacheAdd cache woKey none, w1)
        | (some resp, w1) =>
            if resp.status = 401 then
              let w2 := fetchNewToken w1
              match doRequest oracle w2 with
              | (none, w3) => (none, cacheAdd cache woKey none, w3)
              | (some resp2, w3) =>
                  if resp2.status = 401 then
                    (none, cacheAdd cache woKey none, w3)
                  else finishLookup resp2 woKey cache w3
            else finishLookup resp woKey cache w1

/-- Response classification at the end of approve_invoice: 200 or 204 is a
fresh approval; a 403 whose body contains the literal text
"already had this status" is an idempotent success; anything else fails. -/
def classifyApproval (resp : HttpResp) : Bool :=
  if resp.status = 200 ∨ resp.status = 204 then true
  else if resp.status = 403 && strContains resp.body "already had this status" then
    true
  else false

/-- Embeds approve_invoice: one request with the current token; a 401
triggers exactly one token refresh and one retry; a network error or a
second 401 fails the row; otherwise the response is classified. -/
def approve_invoice (oracle : Nat → Option HttpResp) (w : World) :
    Bool × World :=
  match doRequest oracle w with
  | (none, w1) => (false, w1)
  | (some resp, w1) =>
      if resp.status = 401 then
        let w2 := fetchNewToken w1
        match doRequest oracle w2 with
        | (none, w3) => (false, w3)
        | (some resp2, w3) =>
            if resp2.status = 401 then (false, w3)
            else (classifyApproval resp2, w3)
      else (classifyApproval resp, w1)

/-! ### The approval run (DL_contract_rate_land.py, run_approvals) -/

/-- The Rate_Comps fields run_approvals consumes for a row. -/
structure RunRow where
  wo : String
  category : String
  approvalStatus : String
deriving DecidableEq, Repr

/-- Embeds the approved_mask of run_approvals: the Approval.Status cell,
stripped and uppercased, must equal APPROVED. -/
def isApprovedStatus (s : String) : Bool :=
  strUpper (strTrim s) == "APPROVED"

/-- One loop iteration of run_approvals: resolve the work order, a lookup
miss failing the row, otherwise submit the approval. -/
def processRow (oracle : Nat → Option HttpResp) (r : RunRow) (cache : Cache)
    (w : World) : Bool × Cache × World :=
  match lookup_invoice_by_wo oracle r.wo cache w with
  | (none, cache1, w1) => (false, cache1, w1)
  | (some _, cache1, w1) =>
      match approve_invoice oracle w1 with
      | (ok, w2) => (ok, cache1, w2)

/-- The loop of run_approvals over the to-approve rows, returning the
success and failure counters. -/
def processRows (oracle : Nat → Option HttpResp) :
    List RunRow → Cache → World → Nat × Nat × Cache × World
  | [], cache, w => (0, 0, cache, w)
  | r :: rest, cache, w =>
      match processRow oracle r cache w with
      | (ok, cache1, w1) =>
          match processRows oracle rest cache1 w1 with
          | (s, f, cache2, w2) =>
              if ok then (s + 1, f, cache2, w2) else (s, f + 1, cache2, w2)

/-- The summary email payload assembled by send_status_email. -/
structure EmailReport where
  approved : Nat
  failed : Nat
  review : Nat
  errorText : Option String
  attachment : String
deriving DecidableEq, Repr

/-- Outcome of one approval run. -/
structure RunResult where
  approved : Nat
  failed : Nat
  review : Nat
  errorText : Option String
  email : Option EmailReport
  trace : List Ev
deriving DecidableEq, Repr

/-- Embeds send_status_email: skipped when no Gmail address is configured,
otherwise the counters, error text and workbook attachment are sent. -/
def sendStatusEmail (gmailAddr : Option String) (a f r : Nat)
    (err : Option String) (attachment : String) : Option EmailReport :=
  match gmailAddr with
  | none => none
  | some _ => some ⟨a, f, r, err, attachment⟩

/-- Embeds run_approvals. The token is fetched eagerly at the top of the try
block, before the Rate_Comps sheet is even loaded. loadRes stands for
loading the sheet, an error value standing for any exception escaping the
body of the try (caught at the top level, its text captured). The finally
block always hands the counters, the captured error text and the workbook
to send_status_email. -/
def run_approvals (gmailAddr : Option String) (invoiceFile : String)
    (loadRes : Except String (List RunRow))
    (oracle : Nat → Option HttpResp) : RunResult :=
  let w0 : World := ⟨0, 0, none, []⟩
  let w1 := fetchNewToken w0
  match loadRes with
  | Except.error e =>
      { approved := 0, failed := 0, review := 0, errorText := some e
        email := sendStatusEmail gmailAddr 0 0 0 (some e) invoiceFile
        trace := w1.trace }
  | Except.ok rows =>
      let toApprove := rows.filter fun r => isApprovedStatus r.approvalStatus
      let review :=
        (rows.filter fun r => !(isApprovedStatus r.approvalStatus)).length
      match processRows oracle toApprove [] w1 with
      | (s, f, _, w2) =>
          { approved := s, failed := f, review := review, errorText := none
            email := sendStatusEmail gmailAddr s f review none invoiceFile
            trace := w2.trace }

/-! ### Trace predicates for the token lifecycle -/

/-- Is this event allowed right after prev? A token fetch must directly
follow a 401 response; requests are always allowed. -/
def guardStep (prev : Option Ev) (e : Ev) : Bool :=
  match e with
  | Ev.fetch => prev == some (Ev.request (some 401))
  | Ev.request _ => true

/-- Every fetch in the list directly follows a 401 response (prev being the
event immediately before the list). -/
def guardedAux : Option Ev → List Ev → Bool
  | _, [] => true
  | prev, e :: rest => guardStep prev e && guardedAux (some e) rest

/-- A concrete invoice line used to witness row-level statements. -/
def sampleInvoiceRow : InvoiceRow :=
  ⟨some 7, "1", "MAINTENANCE", "LANDSCAPING", "I-1", "Open", "100", "50", "5"⟩

/-- Two Approved Rate_Comps rows used to exercise a concrete run. -/
def c3Rows : List RunRow :=
  [⟨"1", "M", "Approved"⟩, ⟨"2", "M", "Approved"⟩]

/-- An oracle whose first two answers are 401 (failing the first row after
one retry) and which then lets the second row succeed. -/
def c3Oracle : Nat → Option HttpResp := fun n =>
  if n = 0 then some ⟨401, "", []⟩
  else if n = 1 then some ⟨401, "", []⟩
  else if n = 2 then some ⟨200, "", [⟨some 5, none, none, none⟩]⟩
  else some ⟨200, "", []⟩

/-- An oracle that resolves the lookup and then answers the approval with a
403 whose body reports the invoice already had this status. -/
def c4Oracle : Nat → Option HttpResp := fun n =>
  if n = 0 then some ⟨200, "", [⟨some 5, none, none, none⟩]⟩
  else some ⟨403, "Invoice already had this status set.", []⟩

/-! ### Helper lemmas -/

/-- decide_approval on a present difference is Approved exactly on the union
of the two tolerance bands. -/
lemma decide_approval_approved_iff (d : ℚ) :
    decide_approval (some d) = ApprovalStatus.Approved ↔
      |d| < 6/100 ∨ (-5 ≤ d ∧ d < 0) := by
  simp only [decide_approval]
  split_ifs with h1 h2
  · simp only [true_iff]
    exact Or.inl h1
  · simp only [true_iff]
    exact Or.inr ⟨h2.2, h2.1⟩
  · simp only [reduceCtorEq, false_iff]
    rintro (h | ⟨hge, hlt⟩)
    · exact h1 h
    · exact h2 ⟨hlt, hge⟩

/-- decide_approval only takes the two values Approved and Review. -/
lemma decide_approval_two_valued (o : Option ℚ) :
    decide_approval o = ApprovalStatus.Approved ∨
      decide_approval o = ApprovalStatus.Review := by
  cases o with
  | none => exact Or.inr rfl
  | some d =>
      simp only [decide_approval]
      split_ifs <;> simp

/-- decide_approval on a present difference is Review exactly outside the
two tolerance bands. -/
lemma decide_approval_review_iff (d : ℚ) :
    decide_approval (some d) = ApprovalStatus.Review ↔
      ¬(|d| < 6/100 ∨ (-5 ≤ d ∧ d < 0)) := by
  constructor
  · intro hrev hset
    rw [(decide_approval_approved_iff d).mpr hset] at hrev
    exact ApprovalStatus.noConfusion hrev
  · intro hset
    rcases decide_approval_two_valued (some d) with h | h
    · exact absurd ((decide_approval_approved_iff d).mp h) hset
    · exact h

/-- Missing right operand propagates through the rate difference. -/
lemma optSub_none_right (x : Option ℚ) : optSub x none = none := by
  cases x <;> rfl

/-- Missing left operand propagates through the rate difference. -/
lemma optSub_none_left (x : Option ℚ) : optSub none x = none := by
  cases x <;> rfl

/-! ### C1 -/

/-- C1: decide_approval of a present rate difference d is Approved iff
|d| < 0.06 or -5 <= d < 0, and Review otherwise; a missing difference gives
Review; the boundaries are as the ordered checks dictate: 0.06 gives Review,
0.05999 gives Approved, -5.00 gives Approved, -5.01 gives Review, 0 gives
Approved. -/
theorem C1_decide_approval_spec :
    (∀ d : ℚ, decide_approval (some d) = ApprovalStatus.Approved ↔
      (|d| < 6/100 ∨ (-5 ≤ d ∧ d < 0)))
    ∧ (∀ d : ℚ, decide_approval (some d) = ApprovalStatus.Review ↔
      ¬(|d| < 6/100 ∨ (-5 ≤ d ∧ d < 0)))
    ∧ decide_approval none = ApprovalStatus.Review
    ∧ decide_approval (some (6/100)) = ApprovalStatus.Review
    ∧ decide_approval (some (5999/100000)) = ApprovalStatus.Approved
    ∧ decide_approval (some (-5)) = ApprovalStatus.Approved
    ∧ decide_approval (some (-501/100)) = ApprovalStatus.Review
    ∧ decide_approval (some 0) = ApprovalStatus.Approved := by
  refine ⟨decide_approval_approved_iff, decide_approval_review_iff, rfl,
    ?_, ?_, ?_, ?_, ?_⟩
  · apply (decide_approval_review_iff _).mpr
    rw [abs_of_pos (show (0 : ℚ) < 6/100 by norm_num)]
    norm_num
  · apply (decide_approval_approved_iff _).mpr
    refine Or.inl ?_
    rw [abs_of_pos (show (0 : ℚ) < 5999/100000 by norm_num)]
    norm_num
  · exact (decide_approval_approved_iff _).mpr (Or.inr (by norm_num))
  · apply (decide_approval_review_iff _).mpr
    rw [abs_of_neg (show (-501/100 : ℚ) < 0 by norm_num)]
    norm_num
  · exact (decide_approval_approved_iff _).mpr (Or.inl (by rw [abs_zero]; norm_num))

/-! ### C2 -/

/-- C2: the contracted rate is the monthly rate when present; otherwise
seasonal divided by billing months when both are present; otherwise missing,
and an invoice row whose location resolves to no contracted rate is decided
Review. Concretely: monthly 1000 gives 1000; seasonal 6000 over 12 months
gives 500; both missing gives missing. -/
theorem C2_contracted_rate_spec :
    (∀ (v : ℚ) (s b : Option ℚ), contractedRate (some v) s b = some v)
    ∧ (∀ s b : ℚ, contractedRate none (some s) (some b) = some (s / b))
    ∧ (∀ b : Option ℚ, contractedRate none none b = none)
    ∧ (∀ s : ℚ, contractedRate none (some s) none = none)
    ∧ contractedRate (some 1000) none none = some 1000
    ∧ contractedRate none (some 6000) (some 12) = some 500
    ∧ contractedRate none none none = none
    ∧ (∀ (rateMap : Int → Option ℚ) (r : InvoiceRow),
        r.locationId.bind rateMap = none →
        (buildRow rateMap r).approvalStatus = ApprovalStatus.Review) := by
  refine ⟨fun v s b => rfl, fun s b => rfl, fun b => rfl, fun s => rfl,
    rfl, by norm_num [contractedRate], rfl, ?_⟩
  intro rateMap r h
  simp only [buildRow, h, optSub_none_right]
  rfl

/-- Witness for C2: a location that the rate map does not cover makes the
row a Review row. -/
theorem C2_witness :
    ((sampleInvoiceRow.locationId.bind (fun _ => (none : Option ℚ))) = none)
    ∧ (buildRow (fun _ => none) sampleInvoiceRow).approvalStatus =
        ApprovalStatus.Review :=
  ⟨rfl, C2_contracted_rate_spec.2.2.2.2.2.2.2 (fun _ => none)
    sampleInvoiceRow rfl⟩

/-- The digit accumulator of digitsVal never decreases. -/
lemma foldl_digits_le (t : List Char) : ∀ a : ℕ,
    a ≤ t.foldl (fun a c => a * 10 + (c.toNat - 48)) a := by
  induction t with
  | nil => intro a; exact Nat.le_refl a
  | cons c t ih =>
      intro a
      simp only [List.foldl_cons]
      exact Nat.le_trans (by omega) (ih (a * 10 + (c.toNat - 48)))

/-- A digit run whose value is zero starts with the digit 0. -/
lemma digitsVal_head_zero (c : Char) (t : List Char)
    (hd : isDigitChar c = true) (h0 : digitsVal (c :: t) = 0) : c = '0' := by
  have h1 : c.toNat - 48 ≤ digitsVal (c :: t) := by
    simpa [digitsVal, List.foldl_cons] using
      foldl_digits_le t (0 * 10 + (c.toNat - 48))
  simp only [isDigitChar, Bool.and_eq_true, decide_eq_true_eq] at hd
  have h48 : c.toNat = 48 := by omega
  apply Char.ext
  apply UInt32.toNat.inj
  exact h48.trans rfl

/-- Trimming whitespace only removes characters. -/
lemma mem_of_mem_trimChars (c : Char) (l : List Char)
    (h : c ∈ trimChars l) : c ∈ l := by
  unfold trimChars at h
  rw [List.mem_reverse] at h
  have h2 := (List.dropWhile_sublist isSpaceChar).subset h
  rw [List.mem_reverse] at h2
  exact (List.dropWhile_sublist isSpaceChar).subset h2

/-- Sign stripping only removes characters. -/
lemma mem_of_mem_splitSign (c : Char) (l : List Char)
    (h : c ∈ (splitSign l).2) : c ∈ l := by
  unfold splitSign at h
  split at h
  · exact List.mem_cons_of_mem _ h
  · exact List.mem_cons_of_mem _ h
  · exact h

/-- A mantissa that parses to exactly zero carries a 0 digit. -/
lemma parseMantissa_zero (rest : List Char) (m : ℚ) (ep : List Char)
    (h : parseMantissa rest = some (m, ep)) (hm : m = 0) :
    ∃ c ∈ rest, c = '0' := by
  subst hm
  simp only [parseMantissa] at h
  split at h
  · rename_i fr heq
    split at h
    · exact Option.noConfusion h
    · rename_i hcond
      rw [Option.some_inj] at h
      have hval : (digitsVal (rest.takeWhile isDigitChar) : ℚ) +
          (digitsVal (fr.takeWhile isDigitChar) : ℚ) /
            (10 ^ (fr.takeWhile isDigitChar).length : ℚ) = 0 := by
        have h2 := congrArg Prod.fst h
        simpa using h2
      have hnn1 : (0 : ℚ) ≤ (digitsVal (rest.takeWhile isDigitChar) : ℚ) :=
        Nat.cast_nonneg _
      have hnn2 : (0 : ℚ) ≤ (digitsVal (fr.takeWhile isDigitChar) : ℚ) /
          (10 ^ (fr.takeWhile isDigitChar).length : ℚ) := by
        apply div_nonneg (Nat.cast_nonneg _)
        positivity
      have hz1 : digitsVal (rest.takeWhile isDigitChar) = 0 := by
        have hq : (digitsVal (rest.takeWhile isDigitChar) : ℚ) = 0 := by linarith
        exact_mod_cast hq
      have hz2 : digitsVal (fr.takeWhile isDigitChar) = 0 := by
        have hq : (digitsVal (fr.takeWhile isDigitChar) : ℚ) /
            (10 ^ (fr.takeWhile isDigitChar).length : ℚ) = 0 := by linarith
        rw [div_eq_zero_iff] at hq
        rcases hq with hq | hq
        · exact_mod_cast hq
        · exact absurd hq (by positivity)
      by_cases hint : rest.takeWhile isDigitChar = []
      · have hfr : fr.takeWhile isDigitChar ≠ [] := by
          intro hf
          apply hcond
          simp [hint, hf]
        rcases hx : fr.takeWhile isDigitChar with _ | ⟨c, t⟩
        · exact absurd hx hfr
        · have hmemx : c ∈ fr.takeWhile isDigitChar := by
            rw [hx]
            exact List.mem_cons_self c t
          have hdig : isDigitChar c = true := List.mem_takeWhile_imp hmemx
          have hc0 : c = '0' := by
            apply digitsVal_head_zero c t hdig
            rw [← hx]
            exact hz2
          refine ⟨c, ?_, hc0⟩
          have h1 : c ∈ fr := (List.takeWhile_sublist isDigitChar).subset hmemx
          have h2 : c ∈ rest.dropWhile isDigitChar := by
            rw [heq]
            exact List.mem_cons_of_mem _ h1
          exact (List.dropWhile_sublist isDigitChar).subset h2
      · rcases hx : rest.takeWhile isDigitChar with _ | ⟨c, t⟩
        · exact absurd hx hint
        · have hmemx : c ∈ rest.takeWhile isDigitChar := by
            rw [hx]
            exact List.mem_cons_self c t
          have hdig : isDigitChar c = true := List.mem_takeWhile_imp hmemx
          have hc0 : c = '0' := by
            apply digitsVal_head_zero c t hdig
            rw [← hx]
            exact hz1
          exact ⟨c, (List.takeWhile_sublist isDigitChar).subset hmemx, hc0⟩
  · split at h
    · exact Option.noConfusion h
    · rename_i hint
      rw [Option.some_inj] at h
      have hval : (digitsVal (rest.takeWhile isDigitChar) : ℚ) = 0 := by
        have h2 := congrArg Prod.fst h
        simpa using h2
      have hz1 : digitsVal (rest.takeWhile isDigitChar) = 0 := by
        exact_mod_cast hval
      have hne : rest.takeWhile isDigitChar ≠ [] := by
        intro hf
        apply hint
        simp [hf]
      rcases hx : rest.takeWhile isDigitChar with _ | ⟨c, t⟩
      · exact absurd hx hne
      · have hmemx : c ∈ rest.takeWhile isDigitChar := by
          rw [hx]
          exact List.mem_cons_self c t
        have hdig : isDigitChar c = true := List.mem_takeWhile_imp hmemx
        have hc0 : c = '0' := by
          apply digitsVal_head_zero c t hdig
          rw [← hx]
          exact hz1
        exact ⟨c, (List.takeWhile_sublist isDigitChar).subset hmemx, hc0⟩

/-- An unsigned parse that yields exactly zero carries a 0 digit. -/
lemma parseUnsigned_zero (rest : List Char) (h : parseUnsigned rest = some 0) :
    ∃ c ∈ rest, c = '0' := by
  simp only [parseUnsigned] at h
  split at h
  · exact Option.noConfusion h
  · rename_i m ep heq
    split at h
    · exact Option.noConfusion h
    · rename_i eneg e heq2
      rw [Option.some_inj] at h
      have hm : m = 0 := by
        cases eneg with
        | true =>
            rw [if_pos rfl] at h
            rw [div_eq_zero_iff] at h
            rcases h with h | h
            · exact h
            · exact absurd h (by positivity)
        | false =>
            rw [if_neg (by simp)] at h
            rcases mul_eq_zero.mp h with h | h
            · exact h
            · exact absurd h (by positivity)
      exact parseMantissa_zero rest m ep heq hm

/-- A coercion that yields exactly the number zero can only come from a
text containing the digit 0: coercion failures become missing, never
zero. -/
lemma parseDecimal_zero (s : String) (h : parseDecimal s = some 0) :
    ∃ c ∈ s.data, c = '0' := by
  unfold parseDecimal at h
  rcases hsp : splitSign (trimChars s.data) with ⟨neg, rest⟩
  rw [hsp] at h
  have h0 : Option.map (fun v => if neg = true then -v else v)
      (parseUnsigned rest) = some 0 := h
  rcases hpu : parseUnsigned rest with _ | v
  · rw [hpu] at h0
    exact Option.noConfusion h0
  · rw [hpu] at h0
    simp only [Option.map_some', Option.some_inj] at h0
    have h := h0
    have hv : v = 0 := by
      cases neg with
      | true =>
          rw [if_pos rfl] at h
          exact neg_eq_zero.mp h
      | false =>
          rw [if_neg (by simp)] at h
          exact h
    rcases parseUnsigned_zero rest (hv ▸ hpu) with ⟨c, hc, h0⟩
    have hc2 : c ∈ (splitSign (trimChars s.data)).2 := by
      rw [hsp]
      exact hc
    exact ⟨c, mem_of_mem_trimChars c s.data
      (mem_of_mem_splitSign c (trimChars s.data) hc2), h0⟩

/-! ### C5 -/

/-- C5: in every run that produces Rate_Comps output, the Inv.Total,
Invoice Labor Amount and Sales Tax fields are the comma-stripped decimal
coercions of the selected raw cells; a coercion yields the number zero only
when the cell text carries a 0 digit, so an unparsable value becomes
missing, never zero; a missing Inv.Total then drives a Review decision
rather than an error. The Sales Tax source of a completed run is always the
raw Invoice Tax Amount column: whenever a tax column is absent, building
the __SalesTax helper raises AttributeError and the run aborts before
writing any output, and when both are present the raw column precedes
__SalesTax in the candidate list. -/
theorem C5_normalization_spec :
    (∀ (rateMap : Int → Option ℚ) (r : InvoiceRow),
        (buildRow rateMap r).invTotal = normalizeAmount r.invTotalRaw
        ∧ (buildRow rateMap r).laborAmount = normalizeAmount r.laborRaw
        ∧ (buildRow rateMap r).salesTax = normalizeAmount r.salesTaxRaw)
    ∧ (∀ s : String, normalizeAmount s = some 0 → ∃ c ∈ s.data, c = '0')
    ∧ (∀ (rateMap : Int → Option ℚ) (r : InvoiceRow),
        normalizeAmount r.invTotalRaw = none →
        (buildRow rateMap r).approvalStatus = ApprovalStatus.Review)
    ∧ normalizeAmount "1,234.50" = some (2469/2 : ℚ)
    ∧ normalizeAmount "7,000" = some 7000
    ∧ normalizeAmount "abc" = none
    ∧ normalizeAmount "" = none
    ∧ normalizeAmount "nan" = none
    ∧ (∀ (h1 h2 : Bool) (t v : String), (h1 && h2) = true →
        salesTaxOutput h1 h2 t v = Except.ok (normalizeAmount t))
    ∧ (∀ (h1 h2 : Bool) (t v : String), (h1 && h2) = false →
        salesTaxOutput h1 h2 t v = Except.error ()) := by
  refine ⟨fun rateMap r => ⟨rfl, rfl, rfl⟩, ?_, ?_, ?_, ?_, by decide,
    by decide, by decide, ?_, ?_⟩
  · intro s h0
    rcases parseDecimal_zero _ h0 with ⟨c, hc, hzero⟩
    exact ⟨c, List.mem_of_mem_filter hc, hzero⟩
  · intro rateMap r h
    simp only [buildRow, h, optSub_none_left]
    rfl
  · have h : normalizeAmount "1,234.50" =
        some ((((1234 : ℕ) : ℚ) + ((50 : ℕ) : ℚ) / (10 ^ (2 : ℕ) : ℚ)) *
          (10 ^ (0 : ℕ) : ℚ)) := rfl
    rw [h]
    norm_num
  · have h : normalizeAmount "7,000" =
        some (((7000 : ℕ) : ℚ) * (10 ^ (0 : ℕ) : ℚ)) := rfl
    rw [h]
    norm_num
  · intro h1 h2 t v hcols
    simp [salesTaxOutput, salesTaxHelper, hcols]
  · intro h1 h2 t v hcols
    simp [salesTaxOutput, salesTaxHelper, hcols]

/-- Witness for C5: the unparsable cell N/A coerces to missing (not zero)
and makes the row a Review row; a cell that does coerce to zero carries a 0
digit; and a completed run's Sales Tax is the normalized raw Invoice Tax
Amount cell, while a missing tax column aborts the run. -/
theorem C5_witness :
    normalizeAmount "N/A" = none
    ∧ (buildRow (fun _ => some 100)
        { sampleInvoiceRow with invTotalRaw := "N/A" }).approvalStatus =
        ApprovalStatus.Review
    ∧ (∃ c ∈ ("0.00" : String).data, c = '0')
    ∧ salesTaxOutput true true "5.25" "1" = Except.ok (normalizeAmount "5.25")
    ∧ salesTaxOutput true false "5.25" "1" = Except.error () := by
  refine ⟨by decide, ?_, ?_, ?_, ?_⟩
  · exact C5_normalization_spec.2.2.1 (fun _ => some 100) _ (by decide)
  · apply C5_normalization_spec.2.1 "0.00"
    have h : normalizeAmount "0.00" =
        some ((((0 : ℕ) : ℚ) + ((0 : ℕ) : ℚ) / (10 ^ (2 : ℕ) : ℚ)) *
          (10 ^ (0 : ℕ) : ℚ)) := rfl
    rw [h]
    norm_num
  · exact C5_normalization_spec.2.2.2.2.2.2.2.2.1 true true "5.25" "1" rfl
  · exact C5_normalization_spec.2.2.2.2.2.2.2.2.2 true false "5.25" "1" rfl

/-! ### World and trace lemmas -/

/-- Appending a segment that is guarded after any predecessor preserves
guardedness. -/
lemma guardedAux_append_of (p : Option Ev) (l m : List Ev)
    (hl : guardedAux p l = true) (hm : ∀ q, guardedAux q m = true) :
    guardedAux p (l ++ m) = true := by
  induction l generalizing p with
  | nil => exact hm p
  | cons e t ih =>
      simp only [guardedAux, Bool.and_eq_true] at hl
      simp only [List.cons_append, guardedAux, Bool.and_eq_true]
      exact ⟨hl.1, ih (some e) hl.2⟩

/-- A single request event is guarded after any predecessor. -/
lemma guarded_single (x : Option Nat) :
    ∀ q, guardedAux q [Ev.request x] = true := by
  intro q
  simp [guardedAux, guardStep]

/-- A 401, the forced token refresh and the retry are guarded after any
predecessor. -/
lemma guarded_retry (x : Option Nat) :
    ∀ q, guardedAux q [Ev.request (some 401), Ev.fetch, Ev.request x] = true := by
  intro q
  simp [guardedAux, guardStep]

/-- finishLookup never touches the world. -/
lemma finishLookup_world (resp : HttpResp) (woKey : String) (cache : Cache)
    (w : World) : (finishLookup resp woKey cache w).2.2 = w := by
  unfold finishLookup
  split
  · rfl
  · split
    · rfl
    · split <;> rfl

/-- A lookup call entered with a token in the slot appends a trace segment
in which every fetch directly follows a 401, and leaves a token in the
slot. -/
lemma lookup_world (oracle : Nat → Option HttpResp) (wo : String)
    (cache : Cache) (w : World) (t : Nat) (htok : w.tok = some t) :
    ∃ seg, ((lookup_invoice_by_wo oracle wo cache w).2.2).trace = w.trace ++ seg
      ∧ (∀ q, guardedAux q seg = true)
      ∧ ((lookup_invoice_by_wo oracle wo cache w).2.2).tok.isSome = true := by
  by_cases hwo : (strTrim wo == "") = true
  · exact ⟨[], by simp [lookup_invoice_by_wo, hwo], fun q => rfl,
      by simp [lookup_invoice_by_wo, hwo, htok]⟩
  · rcases hc : cacheFind cache (strTrim wo) with _ | v
    · rcases h1 : oracle w.reqIdx with _ | resp
      · refine ⟨[Ev.request none], ?_, guarded_single none, ?_⟩ <;>
          simp [lookup_invoice_by_wo, doRequest, getOrRefreshTok, fetchNewToken,
            hwo, hc, htok, h1]
      · by_cases hs : resp.status = 401
        · rcases h2 : oracle (w.reqIdx + 1) with _ | resp2
          · refine ⟨[Ev.request (some 401), Ev.fetch, Ev.request none], ?_,
              guarded_retry none, ?_⟩ <;>
              simp [lookup_invoice_by_wo, doRequest, getOrRefreshTok, fetchNewToken,
                hwo, hc, htok, h1, hs, h2]
          · by_cases hs2 : resp2.status = 401
            · refine ⟨[Ev.request (some 401), Ev.fetch, Ev.request (some 401)], ?_,
                guarded_retry (some 401), ?_⟩ <;>
                simp [lookup_invoice_by_wo, doRequest, getOrRefreshTok, fetchNewToken,
                  hwo, hc, htok, h1, hs, h2, hs2]
            · refine ⟨[Ev.request (some 401), Ev.fetch, Ev.request (some resp2.status)],
                ?_, guarded_retry (some resp2.status), ?_⟩ <;>
                simp [lookup_invoice_by_wo, doRequest, getOrRefreshTok, fetchNewToken,
                  finishLookup_world, hwo, hc, htok, h1, hs, h2, hs2]
        · refine ⟨[Ev.request (some resp.status)], ?_,
            guarded_single (some resp.status), ?_⟩ <;>
            simp [lookup_invoice_by_wo, doRequest, getOrRefreshTok, fetchNewToken,
              finishLookup_world, hwo, hc, htok, h1, hs]
    · exact ⟨[], by simp [lookup_invoice_by_wo, hwo, hc], fun q => rfl,
        by simp [lookup_invoice_by_wo, hwo, hc, htok]⟩

/-- An approve call entered with a token in the slot appends a trace segment
in which every fetch directly follows a 401, and leaves a token in the
slot. -/
lemma approve_world (oracle : Nat → Option HttpResp) (w : World) (t : Nat)
    (htok : w.tok = some t) :
    ∃ seg, ((approve_invoice oracle w).2).trace = w.trace ++ seg
      ∧ (∀ q, guardedAux q seg = true)
      ∧ ((approve_invoice oracle w).2).tok.isSome = true := by
  rcases h1 : oracle w.reqIdx with _ | resp
  · refine ⟨[Ev.request none], ?_, guarded_single none, ?_⟩ <;>
      simp [approve_invoice, doRequest, getOrRefreshTok, fetchNewToken, htok, h1]
  · by_cases hs : resp.status = 401
    · rcases h2 : oracle (w.reqIdx + 1) with _ | resp2
      · refine ⟨[Ev.request (some 401), Ev.fetch, Ev.request none], ?_,
          guarded_retry none, ?_⟩ <;>
          simp [approve_invoice, doRequest, getOrRefreshTok, fetchNewToken,
            htok, h1, hs, h2]
      · by_cases hs2 : resp2.status = 401
        · refine ⟨[Ev.request (some 401), Ev.fetch, Ev.request (some 401)], ?_,
            guarded_retry (some 401), ?_⟩ <;>
            simp [approve_invoice, doRequest, getOrRefreshTok, fetchNewToken,
              htok, h1, hs, h2, hs2]
        · refine ⟨[Ev.request (some 401), Ev.fetch, Ev.request (some resp2.status)],
            ?_, guarded_retry (some resp2.status), ?_⟩ <;>
            simp [approve_invoice, doRequest, getOrRefreshTok, fetchNewToken,
              htok, h1, hs, h2, hs2]
    · refine ⟨[Ev.request (some resp.status)], ?_,
        guarded_single (some resp.status), ?_⟩ <;>
        simp [approve_invoice, doRequest, getOrRefreshTok, fetchNewToken,
          htok, h1, hs]

/-- One row of the approval loop appends a guarded trace segment and keeps a
token in the slot. -/
lemma processRow_world (oracle : Nat → Option HttpResp) (r : RunRow)
    (cache : Cache) (w : World) (t : Nat) (htok : w.tok = some t) :
    ∃ seg, ((processRow oracle r cache w).2.2).trace = w.trace ++ seg
      ∧ (∀ q, guardedAux q seg = true)
      ∧ ((processRow oracle r cache w).2.2).tok.isSome = true := by
  rcases hl : lookup_invoice_by_wo oracle r.wo cache w with ⟨meta, cache1, w1⟩
  have hw := lookup_world oracle r.wo cache w t htok
  rw [hl] at hw
  rcases hw with ⟨seg1, hseg1, hg1, htok1⟩
  rcases meta with _ | m
  · have hred : processRow oracle r cache w = (false, cache1, w1) := by
      simp only [processRow, hl]
    rw [hred]
    exact ⟨seg1, hseg1, hg1, htok1⟩
  · rcases Option.isSome_iff_exists.mp htok1 with ⟨t1, ht1⟩
    rcases ha : approve_invoice oracle w1 with ⟨ok, w2⟩
    have hw2 := approve_world oracle w1 t1 ht1
    rw [ha] at hw2
    rcases hw2 with ⟨seg2, hseg2, hg2, htok2⟩
    have hred : processRow oracle r cache w = (ok, cache1, w2) := by
      simp only [processRow, hl, ha]
    rw [hred]
    refine ⟨seg1 ++ seg2, ?_, ?_, htok2⟩
    · show w2.trace = w.trace ++ (seg1 ++ seg2)
      have h2 : w2.trace = w1.trace ++ seg2 := hseg2
      have h1 : w1.trace = w.trace ++ seg1 := hseg1
      rw [h2, h1, List.append_assoc]
    · intro q
      exact guardedAux_append_of q seg1 seg2 (hg1 q) hg2

/-- The whole approval loop appends a guarded trace segment and keeps a
token in the slot. -/
lemma processRows_world (oracle : Nat → Option HttpResp) (l : List RunRow) :
    ∀ (cache : Cache) (w : World) (t : Nat), w.tok = some t →
    ∃ seg, ((processRows oracle l cache w).2.2.2).trace = w.trace ++ seg
      ∧ (∀ q, guardedAux q seg = true)
      ∧ ((processRows oracle l cache w).2.2.2).tok.isSome = true := by
  induction l with
  | nil =>
      intro cache w t htok
      exact ⟨[], by simp [processRows], fun q => rfl, by simp [processRows, htok]⟩
  | cons r rest ih =>
      intro cache w t htok
      rcases hp : processRow oracle r cache w with ⟨ok, cache1, w1⟩
      have hw1 := processRow_world oracle r cache w t htok
      rw [hp] at hw1
      rcases hw1 with ⟨seg1, hseg1, hg1, htok1⟩
      rcases Option.isSome_iff_exists.mp htok1 with ⟨t1, ht1⟩
      rcases hr : processRows oracle rest cache1 w1 with ⟨s, f, cache2, w2⟩
      have hw2 := ih cache1 w1 t1 ht1
      rw [hr] at hw2
      rcases hw2 with ⟨seg2, hseg2, hg2, htok2⟩
      have hred : (processRows oracle (r :: rest) cache w).2.2.2 = w2 := by
        simp only [processRows, hp, hr]
        split <;> rfl
      refine ⟨seg1 ++ seg2, ?_, ?_, ?_⟩
      · rw [hred, hseg2, hseg1, List.append_assoc]
      · intro q
        exact guardedAux_append_of q seg1 seg2 (hg1 q) hg2
      · rw [hred]
        exact htok2

/-- The loop counters account for every processed row exactly once. -/
lemma processRows_count (oracle : Nat → Option HttpResp) (l : List RunRow) :
    ∀ (cache : Cache) (w : World),
      (processRows oracle l cache w).1 + (processRows oracle l cache w).2.1 =
        l.length := by
  induction l with
  | nil => intro cache w; rfl
  | cons r rest ih =>
      intro cache w
      rcases hp : processRow oracle r cache w with ⟨ok, cache1, w1⟩
      rcases hr : processRows oracle rest cache1 w1 with ⟨s, f, cache2, w2⟩
      have hih : s + f = rest.length := by
        have h0 := ih cache1 w1
        rw [hr] at h0
        exact h0
      simp only [processRows, hp, hr]
      split
      · show s + 1 + f = rest.length + 1
        omega
      · show s + (f + 1) = rest.length + 1
        omega

/-- Each row lands in exactly one side of the approved-status partition. -/
lemma filter_length_partition (p : RunRow → Bool) (l : List RunRow) :
    (l.filter p).length + (l.filter (fun r => !(p r))).length = l.length := by
  induction l with
  | nil => rfl
  | cons a t ih =>
      cases h : p a with
      | true =>
          simp only [List.filter_cons, h, Bool.not_true, if_true,
            Bool.false_eq_true, if_false, List.length_cons]
          omega
      | false =>
          simp only [List.filter_cons, h, Bool.not_false, if_true,
            Bool.false_eq_true, if_false, List.length_cons]
          omega

/-! ### C8 -/

/-- When some CSV was extracted, find_invoice_csv picks one of them. -/
lemma find_invoice_csv_mem (dir : String) (files : List String)
    (h : csvCandidates files ≠ []) :
    ∃ r, find_invoice_csv dir files = some r ∧ r ∈ csvCandidates files := by
  unfold find_invoice_csv
  rw [if_neg (by simpa using h)]
  rcases h1 : (csvCandidates files).find?
      (fun c => c == dir ++ "/" ++ PREFERRED_NAME) with _ | c1
  · rcases h2 : (csvCandidates files).find?
        (fun c => strContains (strLower (baseName c)) "financial_details") with _ | c2
    · rcases h3 : (csvCandidates files).find?
          (fun c => strContains (strLower (baseName c)) "accounting_details") with _ | c3
      · cases hc : csvCandidates files with
        | nil => exact absurd hc h
        | cons a t => exact ⟨a, rfl, List.mem_cons_self a t⟩
      · exact ⟨c3, rfl, List.mem_of_find?_eq_some h3⟩
    · exact ⟨c2, rfl, List.mem_of_find?_eq_some h2⟩
  · exact ⟨c1, rfl, List.mem_of_find?_eq_some h1⟩

/-- C8: the invoice CSV is selected among extracted files by priority: the
exact expected path first, else a name containing financial_details, else a
name containing accounting_details, else the first CSV; no CSV at all is a
fatal error; and with both an accounting_details and a financial_details
CSV present, the financial_details file wins in either listing order. -/
theorem C8_find_invoice_csv_spec :
    ∀ (dir : String) (files : List String),
      (find_invoice_csv dir files = none ↔ csvCandidates files = [])
      ∧ ((dir ++ "/" ++ PREFERRED_NAME) ∈ csvCandidates files →
          find_invoice_csv dir files = some (dir ++ "/" ++ PREFERRED_NAME))
      ∧ ((dir ++ "/" ++ PREFERRED_NAME) ∉ csvCandidates files →
          (∃ c ∈ csvCandidates files,
            strContains (strLower (baseName c)) "financial_details" = true) →
          ∃ r, find_invoice_csv dir files = some r
            ∧ r ∈ csvCandidates files
            ∧ strContains (strLower (baseName r)) "financial_details" = true)
      ∧ ((dir ++ "/" ++ PREFERRED_NAME) ∉ csvCandidates files →
          (∀ c ∈ csvCandidates files,
            strContains (strLower (baseName c)) "financial_details" = false) →
          (∃ c ∈ csvCandidates files,
            strContains (strLower (baseName c)) "accounting_details" = true) →
          ∃ r, find_invoice_csv dir files = some r
            ∧ r ∈ csvCandidates files
            ∧ strContains (strLower (baseName r)) "accounting_details" = true)
      ∧ ((dir ++ "/" ++ PREFERRED_NAME) ∉ csvCandidates files →
          (∀ c ∈ csvCandidates files,
            strContains (strLower (baseName c)) "financial_details" = false) →
          (∀ c ∈ csvCandidates files,
            strContains (strLower (baseName c)) "accounting_details" = false) →
          find_invoice_csv dir files = (csvCandidates files).head?)
      ∧ find_invoice_csv "d" ["d/accounting_details.csv", "d/financial_details.csv"]
          = some "d/financial_details.csv"
      ∧ find_invoice_csv "d" ["d/financial_details.csv", "d/accounting_details.csv"]
          = some "d/financial_details.csv" := by
  intro dir files
  refine ⟨?_, ?_, ?_, ?_, ?_, by decide, by decide⟩
  · constructor
    · intro hnone
      by_contra hne
      rcases find_invoice_csv_mem dir files hne with ⟨r, hr, _⟩
      rw [hr] at hnone
      exact Option.noConfusion hnone
    · intro hnil
      unfold find_invoice_csv
      rw [if_pos (by simp [hnil])]
  · intro hmem
    have hsome : ((csvCandidates files).find?
        (fun c => c == dir ++ "/" ++ PREFERRED_NAME)).isSome := by
      rw [List.find?_isSome]
      exact ⟨_, hmem, by simp⟩
    rcases h1 : (csvCandidates files).find?
        (fun c => c == dir ++ "/" ++ PREFERRED_NAME) with _ | c1
    · rw [h1] at hsome
      exact Bool.noConfusion hsome
    · have hc1 : c1 = dir ++ "/" ++ PREFERRED_NAME := by
        have := List.find?_some h1
        exact eq_of_beq this
      unfold find_invoice_csv
      rw [if_neg (by simpa using List.ne_nil_of_mem hmem), h1, hc1]
  · intro hpref hex
    have h1 : (csvCandidates files).find?
        (fun c => c == dir ++ "/" ++ PREFERRED_NAME) = none := by
      rw [List.find?_eq_none]
      intro x hx hbeq
      exact hpref (eq_of_beq hbeq ▸ hx)
    have hsome : ((csvCandidates files).find?
        (fun c => strContains (strLower (baseName c)) "financial_details")).isSome := by
      rw [List.find?_isSome]
      rcases hex with ⟨c, hc, hcf⟩
      exact ⟨c, hc, hcf⟩
    rcases h2 : (csvCandidates files).find?
        (fun c => strContains (strLower (baseName c)) "financial_details") with _ | c2
    · rw [h2] at hsome
      exact Bool.noConfusion hsome
    · refine ⟨c2, ?_, List.mem_of_find?_eq_some h2, by simpa using List.find?_some h2⟩
      unfold find_invoice_csv
      rcases hex with ⟨c, hc, _⟩
      rw [if_neg (by simpa using List.ne_nil_of_mem hc), h1, h2]
  · intro hpref hfin hex
    have h1 : (csvCandidates files).find?
        (fun c => c == dir ++ "/" ++ PREFERRED_NAME) = none := by
      rw [List.find?_eq_none]
      intro x hx hbeq
      exact hpref (eq_of_beq hbeq ▸ hx)
    have h2 : (csvCandidates files).find?
        (fun c => strContains (strLower (baseName c)) "financial_details") = none := by
      rw [List.find?_eq_none]
      intro x hx hbeq
      rw [hfin x hx] at hbeq
      exact Bool.noConfusion hbeq
    have hsome : ((csvCandidates files).find?
        (fun c => strContains (strLower (baseName c)) "accounting_details")).isSome := by
      rw [List.find?_isSome]
      rcases hex with ⟨c, hc, hca⟩
      exact ⟨c, hc, hca⟩
    rcases h3 : (csvCandidates files).find?
        (fun c => strContains (strLower (baseName c)) "accounting_details") with _ | c3
    · rw [h3] at hsome
      exact Bool.noConfusion hsome
    · refine ⟨c3, ?_, List.mem_of_find?_eq_some h3, by simpa using List.find?_some h3⟩
      unfold find_invoice_csv
      rcases hex with ⟨c, hc, _⟩
      rw [if_neg (by simpa using List.ne_nil_of_mem hc), h1, h2, h3]
  · intro hpref hfin hacc
    have h1 : (csvCandidates files).find?
        (fun c => c == dir ++ "/" ++ PREFERRED_NAME) = none := by
      rw [List.find?_eq_none]
      intro x hx hbeq
      exact hpref (eq_of_beq hbeq ▸ hx)
    have h2 : (csvCandidates files).find?
        (fun c => strContains (strLower (baseName c)) "financial_details") = none := by
      rw [List.find?_eq_none]
      intro x hx hbeq
      rw [hfin x hx] at hbeq
      exact Bool.noConfusion hbeq
    have h3 : (csvCandidates files).find?
        (fun c => strContains (strLower (baseName c)) "accounting_details") = none := by
      rw [List.find?_eq_none]
      intro x hx hbeq
      rw [hacc x hx] at hbeq
      exact Bool.noConfusion hbeq
    by_cases hnil : csvCandidates files = []
    · unfold find_invoice_csv
      rw [if_pos (by simp [hnil]), hnil]
      rfl
    · unfold find_invoice_csv
      rw [if_neg (by simpa using hnil), h1, h2, h3]

/-- Witness for C8: a folder holding exactly the preferred report makes the
exact-name rule fire, and no CSV at all is the fatal case. -/
theorem C8_witness :
    (("d" ++ "/" ++ PREFERRED_NAME) ∈
      csvCandidates ["d/invoice_report_-_financial_details.csv", "d/notes.txt"])
    ∧ find_invoice_csv "d" ["d/invoice_report_-_financial_details.csv", "d/notes.txt"]
        = some ("d" ++ "/" ++ PREFERRED_NAME)
    ∧ (find_invoice_csv "x" ["x/readme.md"] = none ↔ csvCandidates ["x/readme.md"] = []) := by
  refine ⟨by decide, ?_, (C8_find_invoice_csv_spec "x" ["x/readme.md"]).1⟩
  exact (C8_find_invoice_csv_spec "d"
    ["d/invoice_report_-_financial_details.csv", "d/notes.txt"]).2.1 (by decide)

/-! ### C6 -/

/-- C6: build_rate_comps is a pure function of the rate map and the ordered
invoice lines: the output has exactly one row per input row, in the same
order, the i-th output being the augmentation of the i-th input (whose
identifying fields it preserves), and running it twice over identical
inputs yields identical rows. -/
theorem C6_build_rate_comps_shape :
    ∀ (rateMap : Int → Option ℚ) (rows : List InvoiceRow),
      (build_rate_comps rateMap rows).length = rows.length
      ∧ (∀ i : ℕ,
          (build_rate_comps rateMap rows)[i]? = (rows[i]?).map (buildRow rateMap))
      ∧ (∀ i : ℕ,
          ((build_rate_comps rateMap rows)[i]?).map rateCompKey =
            (rows[i]?).map invoiceKey)
      ∧ build_rate_comps rateMap rows = build_rate_comps rateMap rows := by
  intro rateMap rows
  refine ⟨by simp [build_rate_comps], ?_, ?_, rfl⟩
  · intro i
    simp [build_rate_comps, List.getElem?_map]
  · intro i
    simp only [build_rate_comps, List.getElem?_map]
    cases rows[i]? with
    | none => rfl
    | some r => simp [buildRow, rateCompKey, invoiceKey]


/-- The 403 idempotency classification at the end of approve_invoice, as a
plain disjunction. -/
lemma classifyApproval_iff (resp : HttpResp) :
    classifyApproval resp = true ↔
      (resp.status = 200 ∨ resp.status = 204 ∨
        (resp.status = 403 ∧
          strContains resp.body "already had this status" = true)) := by
  unfold classifyApproval
  split_ifs with h1 h2
  · simp only [true_iff]
    rcases h1 with h | h
    · exact Or.inl h
    · exact Or.inr (Or.inl h)
  · simp only [true_iff]
    simp only [Bool.and_eq_true, decide_eq_true_eq] at h2
    exact Or.inr (Or.inr h2)
  · simp only [Bool.false_eq_true, false_iff]
    push_neg at h1
    rintro (h | h | ⟨h403, hcon⟩)
    · exact absurd h h1.1
    · exact absurd h h1.2
    · apply h2
      simp [h403, hcon]

/-! ### C3 -/

/-- C3: a lookup or approval request that meets a 401 fetches exactly one
replacement token and retries exactly once; a second 401 fails the row with
no third request; a non-401 retry answer is classified normally; and a
concrete two-row run whose first row fails twice with 401 still processes
the second row to success. -/
theorem C3_auth_retry :
    (∀ (oracle : Nat → Option HttpResp) (wo : String) (cache : Cache)
        (w : World) (t : Nat) (r1 r2 : HttpResp),
      w.tok = some t → (strTrim wo == "") = false →
      cacheFind cache (strTrim wo) = none →
      oracle w.reqIdx = some r1 → r1.status = 401 →
      oracle (w.reqIdx + 1) = some r2 → r2.status = 401 →
      lookup_invoice_by_wo oracle wo cache w =
        (none, cacheAdd cache (strTrim wo) none,
          ⟨w.reqIdx + 2, w.tokCount + 1, some w.tokCount,
            w.trace ++ [Ev.request (some 401), Ev.fetch, Ev.request (some 401)]⟩))
    ∧ (∀ (oracle : Nat → Option HttpResp) (w : World) (t : Nat)
        (r1 r2 : HttpResp),
      w.tok = some t →
      oracle w.reqIdx = some r1 → r1.status = 401 →
      oracle (w.reqIdx + 1) = some r2 → r2.status = 401 →
      approve_invoice oracle w =
        (false,
          ⟨w.reqIdx + 2, w.tokCount + 1, some w.tokCount,
            w.trace ++ [Ev.request (some 401), Ev.fetch, Ev.request (some 401)]⟩))
    ∧ (∀ (oracle : Nat → Option HttpResp) (w : World) (t : Nat)
        (r1 r2 : HttpResp),
      w.tok = some t →
      oracle w.reqIdx = some r1 → r1.status = 401 →
      oracle (w.reqIdx + 1) = some r2 → r2.status ≠ 401 →
      approve_invoice oracle w =
        (classifyApproval r2,
          ⟨w.reqIdx + 2, w.tokCount + 1, some w.tokCount,
            w.trace ++ [Ev.request (some 401), Ev.fetch, Ev.request (some r2.status)]⟩))
    ∧ (run_approvals (some "g") "wb" (Except.ok c3Rows) c3Oracle).approved = 1
    ∧ (run_approvals (some "g") "wb" (Except.ok c3Rows) c3Oracle).failed = 1
    ∧ (run_approvals (some "g") "wb" (Except.ok c3Rows) c3Oracle).review = 0 := by
  refine ⟨?_, ?_, ?_, by rfl, by rfl, by rfl⟩
  · intro oracle wo cache w t r1 r2 htok hwo hc h1 hs1 h2 hs2
    simp only [lookup_invoice_by_wo, doRequest, getOrRefreshTok, fetchNewToken,
      hwo, hc, htok, h1, hs1, h2, hs2, Bool.false_eq_true, if_false, if_true,
      Option.map_some, reduceIte]
    simp [hs1, hs2, Nat.add_assoc]
  · intro oracle w t r1 r2 htok h1 hs1 h2 hs2
    simp only [approve_invoice, doRequest, getOrRefreshTok, fetchNewToken,
      htok, h1, hs1, h2, hs2, Option.map_some, reduceIte]
    simp [hs1, hs2, Nat.add_assoc]
  · intro oracle w t r1 r2 htok h1 hs1 h2 hs2
    simp only [approve_invoice, doRequest, getOrRefreshTok, fetchNewToken,
      htok, h1, hs1, h2, hs2, Option.map_some, reduceIte]
    simp [hs1, hs2, Nat.add_assoc]

/-- Witness for C3: a double 401 on a fresh work order fails the lookup
after exactly two requests and one replacement token. -/
theorem C3_witness :
    lookup_invoice_by_wo (fun _ => some ⟨401, "", []⟩) "7" [] ⟨0, 1, some 0, []⟩ =
      (none, cacheAdd [] (strTrim "7") none,
        ⟨0 + 2, 1 + 1, some 1,
          [] ++ [Ev.request (some 401), Ev.fetch, Ev.request (some 401)]⟩) :=
  C3_auth_retry.1 (fun _ => some ⟨401, "", []⟩) "7" [] ⟨0, 1, some 0, []⟩ 0
    ⟨401, "", []⟩ ⟨401, "", []⟩ rfl (by decide) rfl rfl rfl rfl rfl

/-! ### C4 -/

/-- C4 counterexample: HTTP 201 is a success status (2xx), yet the code
counts the row as failed — approve_invoice returns true only for 200 and
204, so "an HTTP success status counts the row as newly approved" fails at
status 201. -/
theorem C4_counterexample :
    (approve_invoice (fun _ => some ⟨201, "", []⟩) ⟨0, 1, some 0, []⟩).1 = false
    ∧ 200 ≤ 201 ∧ 201 < 300 :=
  ⟨rfl, by omega, by omega⟩

/-- C4 amended: an approval response of exactly 200 or 204 counts the row as
newly approved; a 403 whose body contains "already had this status" also
counts it as approved; every other response — other 2xx statuses included —
counts it as failed; and a run whose approval call answers 403-already
increments the approved counter, not the failed one. -/
theorem C4_approval_classification :
    (∀ (oracle : Nat → Option HttpResp) (w : World) (t : Nat)
        (resp : HttpResp),
      w.tok = some t → oracle w.reqIdx = some resp → resp.status ≠ 401 →
      ((approve_invoice oracle w).1 = true ↔
        (resp.status = 200 ∨ resp.status = 204 ∨
          (resp.status = 403 ∧
            strContains resp.body "already had this status" = true))))
    ∧ (run_approvals (some "g") "wb"
        (Except.ok [⟨"1", "M", "Approved"⟩]) c4Oracle).approved = 1
    ∧ (run_approvals (some "g") "wb"
        (Except.ok [⟨"1", "M", "Approved"⟩]) c4Oracle).failed = 0 := by
  refine ⟨?_, by rfl, by rfl⟩
  intro oracle w t resp htok h1 hs
  simp only [approve_invoice, doRequest, getOrRefreshTok, fetchNewToken,
    htok, h1, hs, Option.map_some, reduceIte]
  exact classifyApproval_iff resp

/-- Witness for C4: a 403 response reporting "already had this status" is
classified as an approval success. -/
theorem C4_witness :
    (approve_invoice (fun _ => some ⟨403, "already had this status", []⟩)
      ⟨0, 1, some 0, []⟩).1 = true := by
  have h := C4_approval_classification.1
    (fun _ => some ⟨403, "already had this status", []⟩)
    ⟨0, 1, some 0, []⟩ 0 ⟨403, "already had this status", []⟩ rfl rfl (by decide)
  exact h.mpr (Or.inr (Or.inr ⟨rfl, by decide⟩))

/-! ### C7 -/

/-- C7 counterexample: the token is fetched eagerly at the top of
run_approvals, not lazily on first use — a run with no approvable rows
performs a token fetch although it never issues an API request. -/
theorem C7_counterexample :
    (run_approvals (some "g") "wb" (Except.ok []) (fun _ => none)).trace =
      [Ev.fetch]
    ∧ (∀ x, Ev.request x ∉
        (run_approvals (some "g") "wb" (Except.ok []) (fun _ => none)).trace) := by
  constructor
  · rfl
  · intro x
    rw [show (run_approvals (some "g") "wb" (Except.ok []) (fun _ => none)).trace
      = [Ev.fetch] from rfl]
    simp

/-- C7 amended: every run fetches the token eagerly once at its start (its
first trace event is the fetch), and afterwards the shared token slot is
only ever replaced directly after a 401 response; the slot itself is a local
of the run, never persisted across runs. -/
theorem C7_token_lifecycle :
    ∀ (gmailAddr : Option String) (invoiceFile : String)
      (loadRes : Except String (List RunRow)) (oracle : Nat → Option HttpResp),
      (run_approvals gmailAddr invoiceFile loadRes oracle).trace.head? =
        some Ev.fetch
      ∧ guardedAux (some Ev.fetch)
          (run_approvals gmailAddr invoiceFile loadRes oracle).trace.tail =
          true := by
  intro gmailAddr invoiceFile loadRes oracle
  cases loadRes with
  | error e => exact ⟨rfl, rfl⟩
  | ok rows =>
      rcases hp : processRows oracle
          (rows.filter fun r => isApprovedStatus r.approvalStatus) []
          (fetchNewToken ⟨0, 0, none, []⟩) with ⟨s, f, cache, w2⟩
      have hw := processRows_world oracle
        (rows.filter fun r => isApprovedStatus r.approvalStatus) []
        (fetchNewToken ⟨0, 0, none, []⟩) 0 rfl
      rw [hp] at hw
      rcases hw with ⟨seg, hseg, hg, _⟩
      have htr : (run_approvals gmailAddr invoiceFile (Except.ok rows) oracle).trace
          = Ev.fetch :: seg := by
        have h0 : (run_approvals gmailAddr invoiceFile (Except.ok rows) oracle).trace
            = w2.trace := by
          simp only [run_approvals, hp]
        rw [h0]
        have h1 : w2.trace = (fetchNewToken ⟨0, 0, none, []⟩).trace ++ seg := hseg
        rw [h1]
        rfl
      rw [htr]
      exact ⟨rfl, hg (some Ev.fetch)⟩

/-! ### C9 -/

/-- C9: whenever a Gmail address is configured the summary email is built in
the guaranteed finally block with exactly the run counters, the captured
error text and the processed workbook attached — also when loading blew up
with an exception, in which case the counters are zero and the error text is
the caught exception; with no address configured the email is skipped. -/
theorem C9_summary_email :
    ∀ (gmailAddr : Option String) (invoiceFile : String)
      (loadRes : Except String (List RunRow)) (oracle : Nat → Option HttpResp),
      (∀ a, gmailAddr = some a →
        (run_approvals gmailAddr invoiceFile loadRes oracle).email =
          some ⟨(run_approvals gmailAddr invoiceFile loadRes oracle).approved,
                (run_approvals gmailAddr invoiceFile loadRes oracle).failed,
                (run_approvals gmailAddr invoiceFile loadRes oracle).review,
                (run_approvals gmailAddr invoiceFile loadRes oracle).errorText,
                invoiceFile⟩)
      ∧ (gmailAddr = none →
          (run_approvals gmailAddr invoiceFile loadRes oracle).email = none)
      ∧ (∀ e, loadRes = Except.error e →
          (run_approvals gmailAddr invoiceFile loadRes oracle).errorText = some e
          ∧ (run_approvals gmailAddr invoiceFile loadRes oracle).approved = 0
          ∧ (run_approvals gmailAddr invoiceFile loadRes oracle).failed = 0
          ∧ (run_approvals gmailAddr invoiceFile loadRes oracle).review = 0)
      ∧ (∀ rows, loadRes = Except.ok rows →
          (run_approvals gmailAddr invoiceFile loadRes oracle).errorText =
            none) := by
  intro gmailAddr invoiceFile loadRes oracle
  cases loadRes with
  | error e =>
      refine ⟨?_, ?_, ?_, ?_⟩
      · intro a ha
        subst ha
        rfl
      · intro ha
        subst ha
        rfl
      · intro e2 he
        injection he with he2
        subst he2
        exact ⟨rfl, rfl, rfl, rfl⟩
      · intro rows hrows
        exact Except.noConfusion hrows
  | ok rows =>
      rcases hp : processRows oracle
          (rows.filter fun r => isApprovedStatus r.approvalStatus) []
          (fetchNewToken ⟨0, 0, none, []⟩) with ⟨s, f, cache, w2⟩
      refine ⟨?_, ?_, ?_, ?_⟩
      · intro a ha
        subst ha
        simp only [run_approvals, hp, sendStatusEmail]
      · intro ha
        subst ha
        simp only [run_approvals, hp, sendStatusEmail]
      · intro e2 he
        exact Except.noConfusion he
      · intro rows2 hrows
        injection hrows with hr2
        subst hr2
        simp only [run_approvals, hp]

/-- Witness for C9: a run whose load step raises still builds the summary
email, carrying zero counters and the captured error text. -/
theorem C9_witness :
    (run_approvals (some "g") "wb" (Except.error "boom") (fun _ => none)).email =
      some ⟨(run_approvals (some "g") "wb" (Except.error "boom") (fun _ => none)).approved,
            (run_approvals (some "g") "wb" (Except.error "boom") (fun _ => none)).failed,
            (run_approvals (some "g") "wb" (Except.error "boom") (fun _ => none)).review,
            (run_approvals (some "g") "wb" (Except.error "boom") (fun _ => none)).errorText,
            "wb"⟩
    ∧ (run_approvals (some "g") "wb" (Except.error "boom") (fun _ => none)).errorText =
        some "boom" :=
  ⟨(C9_summary_email (some "g") "wb" (Except.error "boom") (fun _ => none)).1 "g" rfl,
   ((C9_summary_email (some "g") "wb" (Except.error "boom") (fun _ => none)).2.2.1
      "boom" rfl).1⟩

/-! ### C10 -/

/-- C10: in a run that completes without an exception, the needs-review
counter is exactly the number of rows whose stripped, uppercased
Approval.Status differs from APPROVED; the approved and failed counters
together account exactly for the submitted rows; the three counters sum to
the row count; and a run with no submitted row issues no lookup or approval
request at all (its trace is the initial token fetch alone). -/
theorem C10_run_counters :
    ∀ (gmailAddr : Option String) (invoiceFile : String) (rows : List RunRow)
      (oracle : Nat → Option HttpResp),
      (run_approvals gmailAddr invoiceFile (Except.ok rows) oracle).review =
        (rows.filter (fun r => !(isApprovedStatus r.approvalStatus))).length
      ∧ ((run_approvals gmailAddr invoiceFile (Except.ok rows) oracle).approved +
          (run_approvals gmailAddr invoiceFile (Except.ok rows) oracle).failed =
          (rows.filter (fun r => isApprovedStatus r.approvalStatus)).length)
      ∧ ((run_approvals gmailAddr invoiceFile (Except.ok rows) oracle).approved +
          (run_approvals gmailAddr invoiceFile (Except.ok rows) oracle).failed +
          (run_approvals gmailAddr invoiceFile (Except.ok rows) oracle).review =
          rows.length)
      ∧ ((∀ r ∈ rows, isApprovedStatus r.approvalStatus = false) →
          (run_approvals gmailAddr invoiceFile (Except.ok rows) oracle).trace =
            [Ev.fetch]) := by
  intro gmailAddr invoiceFile rows oracle
  rcases hp : processRows oracle
      (rows.filter fun r => isApprovedStatus r.approvalStatus) []
      (fetchNewToken ⟨0, 0, none, []⟩) with ⟨s, f, cache, w2⟩
  have hcount : s + f =
      (rows.filter fun r => isApprovedStatus r.approvalStatus).length := by
    have h0 := processRows_count oracle
      (rows.filter fun r => isApprovedStatus r.approvalStatus) []
      (fetchNewToken ⟨0, 0, none, []⟩)
    rw [hp] at h0
    exact h0
  refine ⟨?_, ?_, ?_, ?_⟩
  · simp only [run_approvals, hp]
  · simp only [run_approvals, hp]
    exact hcount
  · simp only [run_approvals, hp]
    rw [hcount]
    exact filter_length_partition _ rows
  · intro hall
    have hnil : rows.filter (fun r => isApprovedStatus r.approvalStatus) = [] := by
      rw [List.filter_eq_nil_iff]
      intro r hr
      simp [hall r hr]
    simp only [run_approvals, hnil, processRows]
    rfl

/-- Witness for C10: a single Review row issues no request and leaves the
trace at the initial eager token fetch. -/
theorem C10_witness :
    (run_approvals (some "g") "wb" (Except.ok [⟨"1", "M", "Review"⟩])
      (fun _ => none)).trace = [Ev.fetch] :=
  (C10_run_counters (some "g") "wb" [⟨"1", "M", "Review"⟩]
    (fun _ => none)).2.2.2 (by decide)

end Droplet
